import Mathlib

/-!
Verification development for the kanjipedia entry parser
(`kanjipedia/entry.py` and its collaborators).

Python strings are modelled as `List Char`; Python sets of strings as
`Finset (List Char)`.  Each definition below embeds one function of the
source, keeping its name where Lean allows it.  Fallible operations
(Python exceptions such as `IndexError`/`ValueError`) are modelled with
`Except Unit` / `Option`.
-/

abbrev Str := List Char

/-- The characters of a string literal, used to write `Str` constants. -/
def chars (s : String) : Str := s.data

/-! ### Python string primitives -/

/-- Whitespace test used by Python `str.strip()` (restricted to the
whitespace characters that occur in the scraped documents). -/
def isWS (c : Char) : Bool := c.isWhitespace

/-- Python `s.strip()`: drop whitespace from both ends. -/
def pyStrip (s : Str) : Str := (s.dropWhile isWS).rdropWhile isWS

/-- Python `s.split(sep)` for a one-character separator `sep`:
always returns a non-empty list of separator-free pieces. -/
def splitC (sep : Char) : Str → List Str
  | [] => [[]]
  | c :: rest =>
    if c = sep then [] :: splitC sep rest
    else
      match splitC sep rest with
      | [] => [[c]]
      | p :: ps => (c :: p) :: ps

/-- Python `re.sub(r"・", " ", s)`: replace every separator by a space. -/
def subDot (s : Str) : Str := s.map (fun c => if c = '・' then ' ' else c)

/-- Python `s.replace("・", "")`: delete every separator character. -/
def dropSep (s : Str) : Str := s.filter (fun c => c ≠ '・')

/-- Does `p` start `s`? (helper for substring search). -/
def startsWithL : Str → Str → Bool
  | _, [] => true
  | [], _ :: _ => false
  | a :: as, b :: bs => a = b && startsWithL as bs

/-- Index of the first occurrence of `p` in `s`, if any. -/
def findSubAux (p : Str) : Str → Option Nat
  | [] => if startsWithL [] p then some 0 else none
  | a :: as =>
    if startsWithL (a :: as) p then some 0
    else (findSubAux p as).map (· + 1)

/-- Python `p in s` (substring containment). -/
def hasSubB (p s : Str) : Bool := (findSubAux p s).isSome

/-- Python `s.find(p)`: first index of `p` in `s`, or `-1`. -/
def pyFind (s p : Str) : Int :=
  match findSubAux p s with
  | some n => (n : Int)
  | none => -1

/-- Python string indexing `s[i]` with negative-index support;
`none` models an `IndexError`. -/
def pyGetChar (s : Str) (i : Int) : Option Char :=
  let j : Int := if i < 0 then (s.length : Int) + i else i
  if j < 0 then none else s[j.toNat]?

/-- `s[i]` as an `Except`, so that an `IndexError` aborts the parse. -/
def pyIndex (s : Str) (i : Int) : Except Unit Char :=
  match pyGetChar s i with
  | some c => .ok c
  | none => .error ()

/-- Python list indexing `l[i]` (non-negative indices only are used by
the embedded code) as an `Except`. -/
def pyIndexL (l : List Str) (i : Int) : Except Unit Str :=
  if i < 0 then .error ()
  else
    match l[i.toNat]? with
    | some x => .ok x
    | none => .error ()

/-! ### `KanjiType` (entry.py lines 27-62) -/

inductive KanjiType where
  | shiji
  | shoukei
  | kaii
  | keisei
  | tenchuu
  | kasha
deriving DecidableEq

/-- The `str`-enum value of each member (Python `enum.auto()` with a
`str` mixin yields the values `"1"` .. `"6"`), used by serialization. -/
def kanjiTypeValue : KanjiType → String
  | .shiji => "1"
  | .shoukei => "2"
  | .kaii => "3"
  | .keisei => "4"
  | .tenchuu => "5"
  | .kasha => "6"

/-- `KanjiType(s)`: recover a member from its value; `none` models the
`ValueError` raised on an unknown value. -/
def kanjiTypeOfValue (s : String) : Option KanjiType :=
  if s = "1" then some .shiji
  else if s = "2" then some .shoukei
  else if s = "3" then some .kaii
  else if s = "4" then some .keisei
  else if s = "5" then some .tenchuu
  else if s = "6" then some .kasha
  else none

/-- `KanjiType.GetKanjiTypes`: collect every type whose marker substring
occurs in the text. -/
def GetKanjiTypes (text : Str) : Finset KanjiType :=
  (if hasSubB (chars "指事") text then {KanjiType.shiji} else ∅) ∪
  (if hasSubB (chars "象形") text then {KanjiType.shoukei} else ∅) ∪
  (if hasSubB (chars "会意") text then {KanjiType.kaii} else ∅) ∪
  (if hasSubB (chars "形声") text then {KanjiType.keisei} else ∅) ∪
  (if hasSubB (chars "転注") text then {KanjiType.tenchuu} else ∅) ∪
  (if hasSubB (chars "仮借") text then {KanjiType.kasha} else ∅)

instance {ε α : Type} [DecidableEq ε] [DecidableEq α] : DecidableEq (Except ε α) := fun a b =>
  match a, b with
  | .error e, .error f =>
    if h : e = f then .isTrue (congrArg Except.error h)
    else .isFalse (fun hh => h (Except.error.inj hh))
  | .error _, .ok _ => .isFalse (fun hh => Except.noConfusion hh)
  | .ok _, .error _ => .isFalse (fun hh => Except.noConfusion hh)
  | .ok x, .ok y =>
    if h : x = y then .isTrue (congrArg Except.ok h)
    else .isFalse (fun hh => h (Except.ok.inj hh))

/-! ### Markup tree (the BeautifulSoup node model) -/

/-- A markup node: a text node (`NavigableString`) or an element
(`Tag`) with a name, attributes and ordered children. -/
inductive Node where
  | text : Str → Node
  | elem : String → List (String × String) → List Node → Node

/-- Attribute lookup, Python `tag.get(key)`. -/
def getAttr (attrs : List (String × String)) (k : String) : Option String :=
  (attrs.find? (fun kv => kv.1 == k)).map (·.2)

/-- The multi-valued `class` attribute as BeautifulSoup returns it:
the attribute text split on whitespace, empty pieces dropped. -/
def classList (attrs : List (String × String)) : Option (List Str) :=
  (getAttr attrs "class").map (fun s => (splitC ' ' (chars s)).filter (fun c => c ≠ []))

/-- Rendering of an attribute list inside a start tag. -/
def attrsChars : List (String × String) → Str
  | [] => []
  | kv :: rest => chars " " ++ chars kv.1 ++ chars "=\"" ++ chars kv.2 ++ chars "\"" ++ attrsChars rest

mutual

/-- Python `str(node)`: a text node is its text, an element renders as
its markup (start tag, children, end tag). -/
def strNode : Node → Str
  | .text s => s
  | .elem n attrs cs =>
    chars "<" ++ chars n ++ attrsChars attrs ++ chars ">" ++ strNodes cs
      ++ chars "</" ++ chars n ++ chars ">"

/-- Rendering of a child list. -/
def strNodes : List Node → Str
  | [] => []
  | c :: cs => strNode c ++ strNodes cs

end

/-! ### Structural decomposition (`_parse_components`, lines 119-175,
and `_handle_special_entries`, lines 321-371) -/

/-- The three fields `_parse_components` fills in. -/
structure CompSt where
  types : Finset KanjiType
  semantic_comp : Finset Str
  phonetic_comp : Option Str

instance : DecidableEq CompSt := fun a b =>
  decidable_of_iff
    (a.types = b.types ∧ a.semantic_comp = b.semantic_comp ∧
      a.phonetic_comp = b.phonetic_comp)
    (by cases a; cases b; simp)

/-- `_handle_special_entries`: the hardcoded decomposition override
table, keyed by character; `none` means the character is regular. -/
def specialEntries (kanji : Str) : Option (Finset Str × Option Str) :=
  if kanji = chars "比" then some ({chars "人"}, none)
  else if kanji = chars "会" then
    some ({chars "曾", chars "<img src=\"/common/images/naritachi/500064.png\">"}, none)
  else if kanji = chars "炎" then some ({chars "火"}, none)
  else if kanji = chars "並" then some ({chars "立"}, none)
  else if kanji = chars "歩" then some ({chars "止"}, none)
  else if kanji = chars "門" then some ({chars "戸"}, none)
  else if kanji = chars "林" then some ({chars "木"}, none)
  else if kanji = chars "乗" then some ({chars "木", chars "人"}, none)
  else if kanji = chars "侵" then some ({chars "人", chars "帚", chars "又"}, none)
  else if kanji = chars "品" then some ({chars "口"}, none)
  else if kanji = chars "保" then
    some ({chars "人", chars "<img src=\"/common/images/naritachi/500065.png\">"}, none)
  else if kanji = chars "要" then some (∅, none)
  else if kanji = chars "森" then some ({chars "木"}, none)
  else if kanji = chars "慨" then
    some ({chars "心"}, some (chars "<img src=\"/common/images/naritachi/2293.png\">"))
  else if kanji = chars "継" then
    some ({chars "糸"}, some (chars "<img src=\"/common/images/naritachi/2565.png\">"))
  else if kanji = chars "憬" then some ({chars "心"}, some (chars "景"))
  else if kanji = chars "錮" then some ({chars "金"}, some (chars "固"))
  else none

/-- The semantic-component step shared by the branches of
`_parse_components` (lines 131-142 and 161-169): a parsable character
is taken as the component, a markup delimiter falls back to
`contents[1]`; the boolean is the `parsable` flag. -/
def parseIfuPair (contents : List Str) (ifu : Char) :
    Except Unit (Finset Str × Bool) :=
  if ifu ≠ '>' ∧ ifu ≠ '<' then
    Except.ok (({[ifu]} : Finset Str), true)
  else do
    let c1 ← pyIndexL contents 1
    Except.ok (({c1} : Finset Str), false)

/-- The phonetic-component step of the 形声 branch (lines 143-158):
read after 音符, after と instead when the text is also 会意, with the
image fallback to `contents[1 if parsable else 2]`. -/
def keiseiTail (types : Finset KanjiType) (naritachi : Str) (contents : List Str)
    (semPar : Finset Str × Bool) : Except Unit CompSt := do
  let onpu0 ← pyIndex naritachi (pyFind naritachi (chars "音符") + 2)
  let onpu ← if KanjiType.kaii ∈ types then
      pyIndex naritachi (pyFind naritachi (chars "と") + 2)
    else Except.ok onpu0
  if onpu ≠ '<' then
    return ⟨types, insert [onpu] semPar.1, some [onpu]⟩
  else
    let v ← pyIndexL contents (if semPar.2 then 1 else 2)
    return ⟨types, insert v semPar.1, some v⟩

/-- `_parse_components`, applied to the preprocessed formation text
(the final line-break segment with parentheticals removed, line 122-123)
and to the tag's child-node list rendered as strings (`contents[i]`,
used by the image fallback).  An `IndexError` from Python string/list
indexing is modelled by `Except.error`. -/
def parseComponents (kanji : Str) (naritachi : Str) (contents : List Str) :
    Except Unit CompSt := do
  let types := GetKanjiTypes naritachi
  match specialEntries kanji with
  | some (sc, pc) => return ⟨types, sc, pc⟩
  | none =>
    if KanjiType.keisei ∈ types then
      let ifu ← if pyFind naritachi (chars "意符") ≠ -1 then
          pyIndex naritachi (pyFind naritachi (chars "意符") + 2)
        else
          pyIndex naritachi (pyFind naritachi (chars "と") - 1)
      let semPar ← parseIfuPair contents ifu
      keiseiTail types naritachi contents semPar
    else if KanjiType.kaii ∈ types then
      let ifu1 ← pyIndex naritachi (pyFind naritachi (chars "と") - 1)
      let semPar ←
        if ifu1 ≠ '>' ∧ ifu1 ≠ '<' then
          Except.ok (({[ifu1]} : Finset Str), true)
        else do
          let c1 ← pyIndexL contents 1
          Except.ok (({c1} : Finset Str), false)
      let ifu2 ← pyIndex naritachi (pyFind naritachi (chars "と") + 2)
      if ifu2 ≠ '>' ∧ ifu2 ≠ '<' then
        return ⟨types, insert [ifu2] semPar.1, none⟩
      else
        let v ← pyIndexL contents (if semPar.2 then 1 else 2)
        return ⟨types, insert v semPar.1, none⟩
    else
      return ⟨types, ∅, none⟩

/-! ### Reading extraction (`_parse_readings`, lines 177-288) -/

/-- State of the onyomi pass: the two target sets and the sticky
extended-mode flag. -/
structure OSt where
  o : Finset Str
  oe : Finset Str
  ext : Bool

/-- State of the kunyomi pass: the two target sets, the accumulated
stem text `kun_builder`, and the extended-mode flag. -/
structure KSt where
  k : Finset Str
  ke : Finset Str
  kb : Str
  ext : Bool

/-- `_get_on_reading` (lines 179-184): strip, replace the separator by
spaces, split on spaces, and add every stripped piece to the set chosen
by the current mode flag. -/
def getOnReading (st : OSt) (element : Str) : OSt :=
  (splitC ' ' (subDot (pyStrip element))).foldl
    (fun a r =>
      if a.ext then { a with oe := insert (pyStrip r) a.oe }
      else { a with o := insert (pyStrip r) a.o })
    st

/-- One step of the onyomi walk (lines 186-198): text runs are read,
span children are walked one level deep, and an `img` whose rendering
contains the extended-marker glyph flips the flag on. -/
def onStep (st : OSt) (child : Node) : OSt :=
  match child with
  | .text s => getOnReading st s
  | .elem name _ children =>
    if name = "span" then
      children.foldl
        (fun a c2 =>
          match c2 with
          | .text t => getOnReading a t
          | .elem n2 a2 ch2 =>
            if n2 = "img" ∧ hasSubB (chars "外") (strNode (.elem n2 a2 ch2)) = true then
              { a with ext := true }
            else a)
        st
    else if name = "img" ∧ hasSubB (chars "外") (strNode child) = true then
      { st with ext := true }
    else st

/-- The split-and-fuse loop over `kuns[:-1]` (lines 214-220 and
250-257): each piece is fused with the pending stem (adding a period
boundary when the stem is non-blank) and flushed via `ins`. -/
def fuseSplit (ins : KSt → Str → KSt) (st : KSt) (ks : List Str) : KSt :=
  ks.foldl
    (fun a k =>
      let kb1 := if pyStrip a.kb ≠ [] then a.kb ++ ['.'] else a.kb
      { ins a (pyStrip (kb1 ++ pyStrip k)) with kb := [] })
    st

/-- Flush the pending stem split on the separator, keeping the last
piece as the new stem (lines 223-228 and 260-266). -/
def preSplit (ins : KSt → Str → KSt) (st : KSt) : KSt :=
  if '・' ∈ st.kb then
    let kbs := splitC '・' st.kb
    let st1 := kbs.dropLast.foldl
      (fun a kk => if pyStrip kk ≠ [] then ins a (pyStrip kk) else a) st
    { st1 with kb := kbs.getLastD [] }
  else st

/-- Insertion into the primary kunyomi set. -/
def insKun (st : KSt) (r : Str) : KSt := { st with k := insert r st.k }

/-- Insertion into the extended kunyomi set. -/
def insKunExt (st : KSt) (r : Str) : KSt := { st with ke := insert r st.ke }

/-- Fusion of one rendered token into the primary set
(lines 212-233): if the token contains the separator, split it and fuse
the pieces, keeping the stripped last piece as the stem; otherwise
pre-split the stem and emit `stem.token` with separators removed. -/
def fusePrim (st : KSt) (s : Str) : KSt :=
  if '・' ∈ s then
    let kuns := splitC '・' s
    let st1 := fuseSplit insKun st kuns.dropLast
    { st1 with kb := pyStrip (kuns.getLastD []) }
  else
    let st1 := preSplit insKun st
    { insKun st1 (pyStrip (dropSep (st1.kb ++ ['.'] ++ s))) with kb := [] }

/-- Fusion of one rendered token into the extended set
(lines 248-271); unlike the primary variant the kept last piece is not
stripped (line 258). -/
def fuseExt (st : KSt) (s : Str) : KSt :=
  if '・' ∈ s then
    let kuns := splitC '・' s
    let st1 := fuseSplit insKunExt st kuns.dropLast
    { st1 with kb := kuns.getLastD [] }
  else
    let st1 := preSplit insKunExt st
    { insKunExt st1 (pyStrip (dropSep (st1.kb ++ ['.'] ++ s))) with kb := [] }

/-- The styled extended-region span (lines 234-271): flush the pending
stem to the primary set, flip the flag on, then walk the span's
children, accumulating text and fusing grandchildren of non-image
elements into the extended set. -/
def kunStyled (st : KSt) (children : List Node) : KSt :=
  let st1 :=
    if st.kb ≠ [] then
      (splitC '・' st.kb).foldl
        (fun a kk => if pyStrip kk ≠ [] then insKun a (pyStrip kk) else a) st
    else st
  let st2 := { st1 with kb := [], ext := true }
  children.foldl
    (fun a c2 =>
      match c2 with
      | .text t => { a with kb := a.kb ++ pyStrip t }
      | .elem n2 _ ch2 =>
        if n2 ≠ "img" then ch2.foldl (fun b c3 => fuseExt b (strNode c3)) a
        else a)
    st2

/-- One step of the kunyomi walk (lines 203-271). -/
def kunStep (st : KSt) (child : Node) : KSt :=
  match child with
  | .text s => { st with kb := st.kb ++ pyStrip s }
  | .elem name attrs children =>
    if name = "span" then
      if ((classList attrs).getD []).head? = some (chars "txtNormal") then
        children.foldl
          (fun a c2 =>
            match c2 with
            | .text t => fusePrim a t
            | .elem n2 a2 ch2 =>
              if n2 ≠ "img" then fusePrim a (strNode (.elem n2 a2 ch2))
              else a)
          st
      else if getAttr attrs "style" = some "color:#000000" then
        kunStyled st children
      else st
    else st

/-- The final flush of the pending stem (lines 272-288). -/
def finalFlush (st : KSt) : KSt :=
  if st.kb ≠ [] then
    if st.ext then
      if '・' ∈ st.kb then
        (splitC '・' st.kb).foldl
          (fun a kk => if pyStrip kk ≠ [] then insKunExt a (pyStrip kk) else a) st
      else insKunExt st (pyStrip st.kb)
    else
      if '・' ∈ st.kb then
        (splitC '・' st.kb).foldl
          (fun a kk => if pyStrip kk ≠ [] then insKun a (pyStrip kk) else a) st
      else insKun st (pyStrip st.kb)
  else st

/-- The four reading sets an Entry carries. -/
structure RSets where
  onyomi : Finset Str
  onyomi_ext : Finset Str
  kunyomi : Finset Str
  kunyomi_ext : Finset Str

/-- `_parse_readings`: run the onyomi pass over `list_tag[0]` and the
kunyomi pass (with final flush) over `list_tag[1]`, both starting from
the entry's empty sets. -/
def parseReadings (onTag kunTag : List Node) : RSets :=
  let o := onTag.foldl onStep ⟨∅, ∅, false⟩
  let k := finalFlush (kunTag.foldl kunStep ⟨∅, ∅, [], false⟩)
  ⟨o.o, o.oe, k.k, k.ke⟩

instance : DecidableEq RSets := fun a b =>
  decidable_of_iff
    (a.onyomi = b.onyomi ∧ a.onyomi_ext = b.onyomi_ext ∧
      a.kunyomi = b.kunyomi ∧ a.kunyomi_ext = b.kunyomi_ext)
    (by cases a; cases b; simp)

/-! ### Reading overrides (`_handle_special_readings`, lines 290-318),
related characters (`_parse_related_kanji`, lines 373-377) -/

/-- `_handle_special_readings`: the hardcoded reading override table;
`none` means the character is regular and `_parse_readings` runs. -/
def specialReadings (kanji : Str) : Option RSets :=
  if kanji = chars "擬" then
    some ⟨{chars "ギ"}, ∅, ∅,
      {chars "なぞら.える", chars "はか.る", chars "まがい", chars "まどき", chars "まど.く"}⟩
  else if kanji = chars "絡" then
    some ⟨{chars "ラク"}, ∅,
      {chars "から.む", chars "から.まる", chars "から.める"},
      {chars "まと.う", chars "から.げる", chars "つな.がる"}⟩
  else if kanji = chars "果" then
    some ⟨{chars "カ"}, ∅,
      {chars "は.たす", chars "は.てる", chars "は.て"},
      {chars "くだもの", chars "は.たして", chars "おお.せる", chars "はか"}⟩
  else none

/-- `_parse_related_kanji`: iterate over the same-radical listing text
with newlines removed and add each character.  The source guards with
`if i == self.kanji: pass`, whose body is a no-op, so the addition runs
in both cases; the two identical branches mirror that. -/
def parseRelatedKanji (kanji : Str) (text : Str) : Finset Str :=
  (text.filter (fun c => c ≠ '\n')).foldl
    (fun s i => if ([i] : Str) = kanji then insert [i] s else insert [i] s) ∅

/-! ### The Entry record and its assembly (`__init__`, `_parse_HTML`,
lines 67-87 and 379-416) -/

/-- An `Entry`'s fields (declaration order follows `__init__`). -/
structure Entry where
  origin_url : Str
  kanji : Str
  old_form : Finset Str
  radical : Str
  semantic_comp : Finset Str
  phonetic_comp : Option Str
  types : Finset KanjiType
  related_kanji : Finset Str
  onyomi : Finset Str
  kunyomi : Finset Str
  onyomi_ext : Finset Str
  kunyomi_ext : Finset Str
  onyomi_all : Finset Str
  kunyomi_all : Finset Str
  meaning : Option Str
  naritachi : Option Str

instance : DecidableEq Entry := fun a b =>
  decidable_of_iff
    (a.origin_url = b.origin_url ∧ a.kanji = b.kanji ∧ a.old_form = b.old_form ∧
      a.radical = b.radical ∧ a.semantic_comp = b.semantic_comp ∧
      a.phonetic_comp = b.phonetic_comp ∧ a.types = b.types ∧
      a.related_kanji = b.related_kanji ∧ a.onyomi = b.onyomi ∧
      a.kunyomi = b.kunyomi ∧ a.onyomi_ext = b.onyomi_ext ∧
      a.kunyomi_ext = b.kunyomi_ext ∧ a.onyomi_all = b.onyomi_all ∧
      a.kunyomi_all = b.kunyomi_all ∧ a.meaning = b.meaning ∧
      a.naritachi = b.naritachi)
    (by cases a; cases b; simp)

/-- The pieces `_parse_HTML` extracts from the document with the markup
library before handing them to the parsing routines: the subject
character, the sub-kanji paragraphs (text, first child), the radical,
the preprocessed formation fragment with its rendered child list (absent
when the document has no naritachi section, the `AttributeError` path),
the two reading fragments `list_tag[0]` / `list_tag[1]`, and the text of
the same-radical listing. -/
structure Doc where
  url : Str
  oyaji : Str
  subKanji : List (Str × Str)
  radical : Str
  naritachi : Option (Str × List Str)
  onTag : List Node
  kunTag : List Node
  bushuText : Str

/-- `_parse_HTML` over an already-located document: assemble the Entry.
A `parseComponents` failure (uncaught `IndexError`) aborts the whole
construction, as in the source. -/
def assembleEntry (d : Doc) : Except Unit Entry := do
  let kanji := d.oyaji
  let olds : Finset Str := d.subKanji.foldl
    (fun s p => if p.1 ≠ kanji then insert p.2 s else s) ∅
  let comp : CompSt ←
    match d.naritachi with
    | none => Except.ok ⟨∅, ∅, none⟩
    | some nc => parseComponents kanji nc.1 nc.2
  let rs : RSets :=
    match specialReadings kanji with
    | some r => r
    | none => parseReadings d.onTag d.kunTag
  let related := parseRelatedKanji kanji d.bushuText
  return { origin_url := d.url, kanji := kanji, old_form := olds, radical := d.radical,
           semantic_comp := comp.semantic_comp, phonetic_comp := comp.phonetic_comp,
           types := comp.types, related_kanji := related,
           onyomi := rs.onyomi, kunyomi := rs.kunyomi,
           onyomi_ext := rs.onyomi_ext, kunyomi_ext := rs.kunyomi_ext,
           onyomi_all := rs.onyomi ∪ rs.onyomi_ext,
           kunyomi_all := rs.kunyomi ∪ rs.kunyomi_ext,
           meaning := none, naritachi := none }

/-! ### Serialization (`GetDataDict`, lines 418-437, and `FromJSON`,
lines 99-117) -/

/-- The plain key-value record `GetDataDict` builds for storage: set
fields become lists, `types` becomes the list of enum value strings.
The four fields read back with `data.get(key, [])` are optional. -/
structure DataDict where
  kanji : Str
  origin_url : Str
  old_form : List Str
  radical : Str
  semantic_comp : List Str
  phonetic_comp : Option Str
  types : List String
  related_kanji : List Str
  onyomi : List Str
  onyomi_ext : Option (List Str)
  kunyomi : List Str
  kunyomi_ext : Option (List Str)
  onyomi_all : Option (List Str)
  kunyomi_all : Option (List Str)

/-- Rank of a `KanjiType`, giving it a linear order so that sets of
types can be listed. -/
def kanjiTypeRank : KanjiType → Nat
  | .shiji => 1
  | .shoukei => 2
  | .kaii => 3
  | .keisei => 4
  | .tenchuu => 5
  | .kasha => 6

instance : LinearOrder KanjiType :=
  LinearOrder.lift' kanjiTypeRank
    (fun a b h => by cases a <;> cases b <;> simp [kanjiTypeRank] at h ⊢)

/-- Python `list(s)` on a set of strings.  Set iteration order is
arbitrary in Python; the model fixes a canonical (sorted) order, which
`set(...)` on deserialization cancels out. -/
def setToList (s : Finset Str) : List Str := s.sort (· ≤ ·)

/-- Python `list(s)` on the set of types, in canonical order. -/
def typesToList (s : Finset KanjiType) : List KanjiType := s.sort (· ≤ ·)

/-- `GetDataDict`: serialize every set field as a list. -/
def GetDataDict (e : Entry) : DataDict :=
  { kanji := e.kanji, origin_url := e.origin_url, old_form := setToList e.old_form,
    radical := e.radical, semantic_comp := setToList e.semantic_comp,
    phonetic_comp := e.phonetic_comp,
    types := (typesToList e.types).map kanjiTypeValue,
    related_kanji := setToList e.related_kanji,
    onyomi := setToList e.onyomi, onyomi_ext := some (setToList e.onyomi_ext),
    kunyomi := setToList e.kunyomi, kunyomi_ext := some (setToList e.kunyomi_ext),
    onyomi_all := some (setToList e.onyomi_all),
    kunyomi_all := some (setToList e.kunyomi_all) }

/-- `[KanjiType(s) for s in data["types"]]`: parse every stored type
value; an unknown value raises (`ValueError`). -/
def parseTypes : List String → Except Unit (List KanjiType)
  | [] => .ok []
  | s :: rest =>
    match kanjiTypeOfValue s with
    | none => .error ()
    | some t => (parseTypes rest).map (fun l => t :: l)

/-- `Entry.FromJSON`: rebuild an Entry from a stored record, restoring
set semantics with `set(...)`; `meaning` and `naritachi` keep the
constructor defaults (they are not serialized). -/
def FromJSON (data : DataDict) : Except Unit Entry := do
  let ts ← parseTypes data.types
  return { origin_url := data.origin_url, kanji := data.kanji,
           old_form := data.old_form.toFinset, radical := data.radical,
           semantic_comp := data.semantic_comp.toFinset,
           phonetic_comp := data.phonetic_comp,
           types := ts.toFinset, related_kanji := data.related_kanji.toFinset,
           onyomi := data.onyomi.toFinset,
           kunyomi := data.kunyomi.toFinset,
           onyomi_ext := (data.onyomi_ext.getD []).toFinset,
           kunyomi_ext := (data.kunyomi_ext.getD []).toFinset,
           onyomi_all := (data.onyomi_all.getD []).toFinset,
           kunyomi_all := (data.kunyomi_all.getD []).toFinset,
           meaning := none, naritachi := none }

/-! ### Invariant predicates and witness inputs -/

/-- Every member of the set is fixed by `pyStrip` (i.e. trimmed). -/
def TrimmedSet (S : Finset Str) : Prop := ∀ r ∈ S, pyStrip r = r

/-- No member of the set contains the reading separator. -/
def SepFreeSet (S : Finset Str) : Prop := ∀ r ∈ S, '・' ∉ r

/-- Invariant of the onyomi pass: both sets hold only trimmed,
separator-free readings. -/
def OInv (st : OSt) : Prop :=
  TrimmedSet st.o ∧ SepFreeSet st.o ∧ TrimmedSet st.oe ∧ SepFreeSet st.oe

/-- Invariant of the kunyomi pass: both sets hold only trimmed
readings. -/
def KInv (st : KSt) : Prop := TrimmedSet st.k ∧ TrimmedSet st.ke

/-- A trivial document used to witness entry-level theorems. -/
def d0 : Doc := ⟨chars "u", chars "k", [], chars "r", none, [], [], []⟩

/-- The Entry `assembleEntry` produces from `d0`. -/
def e0 : Entry :=
  ⟨chars "u", chars "k", ∅, chars "r", ∅, none, ∅, ∅, ∅, ∅, ∅, ∅, ∅, ∅, none, none⟩

/-- A kunyomi fragment on which `_parse_readings` lets the separator
survive: text stems containing `・` are fused unsplit in the
suffix-fusion branch, both in the primary and the extended region. -/
def kunCexFrag : List Node :=
  [.text (chars "あ・い"),
   .elem "span" [("class", "txtNormal")] [.text (chars "・う")],
   .elem "span" [("style", "color:#000000")]
     [.text (chars "え・お"), .elem "b" [] [.text (chars "・か")]]]

/-- A document for the subject character "比" with regular formation
text, used to witness the exception-table bypass. -/
def d4 : Doc := ⟨chars "u", chars "比", [], chars "r",
  some (chars "某テキスト", []), [], [], []⟩

/-- The Entry assembled from `d4`. -/
def e4 : Entry :=
  ⟨chars "u", chars "比", ∅, chars "r", {chars "人"}, none, ∅, ∅, ∅, ∅, ∅, ∅, ∅, ∅,
   none, none⟩

/-- The component state extracted from the witness formation text. -/
def st6 : CompSt :=
  ⟨{KanjiType.kaii, KanjiType.keisei}, {chars "A", chars "B"}, some (chars "B")⟩
/-! ### Helper lemmas about the string primitives -/

theorem dropWhile_cons_self {p : Char → Bool} {c : Char} {t : Str}
    (h : (c :: t).dropWhile p = c :: t) : p c = false := by
  by_cases hp : p c
  · rw [List.dropWhile_cons_of_pos hp] at h
    have hlen := congrArg List.length h
    have hle := (List.dropWhile_sublist p (l := t)).length_le
    simp at hlen
    omega
  · simpa using hp

theorem dropWhile_eq_self_of_prefix {p : Char → Bool} {l t : Str}
    (hl : l.dropWhile p = l) (ht : t <+: l) : t.dropWhile p = t := by
  cases t with
  | nil => simp
  | cons c t' =>
    obtain ⟨r, hr⟩ := ht
    subst hr
    have hc : p c = false := @dropWhile_cons_self p c (t' ++ r) (by simpa using hl)
    rw [List.dropWhile_cons_of_neg (by simp [hc])]

theorem dropWhile_eq_self_append {p : Char → Bool} {l : Str}
    (h : l.dropWhile p = l) (hl : l ≠ []) (m : Str) :
    (l ++ m).dropWhile p = l ++ m := by
  cases l with
  | nil => exact absurd rfl hl
  | cons c t =>
    have hc : p c = false := dropWhile_cons_self h
    rw [List.cons_append, List.dropWhile_cons_of_neg (by simp [hc])]

theorem pyStrip_dropWhile (s : Str) : (pyStrip s).dropWhile isWS = pyStrip s :=
  dropWhile_eq_self_of_prefix (List.dropWhile_idempotent isWS s)
    (List.rdropWhile_prefix isWS (s.dropWhile isWS))

theorem pyStrip_idem (s : Str) : pyStrip (pyStrip s) = pyStrip s := by
  calc pyStrip (pyStrip s) = ((pyStrip s).dropWhile isWS).rdropWhile isWS := rfl
    _ = (pyStrip s).rdropWhile isWS := by rw [pyStrip_dropWhile]
    _ = ((s.dropWhile isWS).rdropWhile isWS).rdropWhile isWS := rfl
    _ = (s.dropWhile isWS).rdropWhile isWS := List.rdropWhile_idempotent isWS _
    _ = pyStrip s := rfl

theorem mem_pyStrip {c : Char} {s : Str} (h : c ∈ pyStrip s) : c ∈ s :=
  (List.dropWhile_suffix isWS).sublist.subset
    ((List.rdropWhile_prefix isWS (s.dropWhile isWS)).sublist.subset h)

theorem pyStrip_parts {s : Str} (h : pyStrip s = s) :
    s.dropWhile isWS = s ∧ s.reverse.dropWhile isWS = s.reverse := by
  have hpre : s <+: s.dropWhile isWS := by
    have := List.rdropWhile_prefix isWS (s.dropWhile isWS)
    rwa [show (s.dropWhile isWS).rdropWhile isWS = s from h] at this
  have hsuf : s.dropWhile isWS <:+ s := List.dropWhile_suffix isWS
  have ht : s.dropWhile isWS = s :=
    hsuf.sublist.eq_of_length (Nat.le_antisymm hsuf.length_le hpre.length_le)
  refine ⟨ht, ?_⟩
  have h2 : s.rdropWhile isWS = s := by nth_rewrite 1 [← ht]; exact h
  have h3 := congrArg List.reverse h2
  simpa [List.rdropWhile] using h3

theorem pyStrip_eq_self_of {s : Str} (h1 : s.dropWhile isWS = s)
    (h2 : s.reverse.dropWhile isWS = s.reverse) : pyStrip s = s := by
  show (s.dropWhile isWS).rdropWhile isWS = s
  rw [h1]
  simp [List.rdropWhile, h2]

theorem pyStrip_append_of {a b : Str} (m : Str) (ha : pyStrip a = a) (hna : a ≠ [])
    (hb : pyStrip b = b) (hnb : b ≠ []) : pyStrip (a ++ m ++ b) = a ++ m ++ b := by
  obtain ⟨ha1, _⟩ := pyStrip_parts ha
  obtain ⟨_, hb2⟩ := pyStrip_parts hb
  apply pyStrip_eq_self_of
  · have := dropWhile_eq_self_append ha1 hna (m ++ b)
    simpa [List.append_assoc] using this
  · have := dropWhile_eq_self_append hb2 (by simpa using hnb) (m.reverse ++ a.reverse)
    simpa [List.reverse_append, List.append_assoc] using this

theorem splitC_ne_nil (sep : Char) (s : Str) : splitC sep s ≠ [] := by
  induction s with
  | nil => simp [splitC]
  | cons c rest ih =>
    simp only [splitC]
    split
    · exact List.cons_ne_nil _ _
    · split
      · exact List.cons_ne_nil _ _
      · exact List.cons_ne_nil _ _

theorem mem_splitC_not_sep {sep : Char} {s : Str} :
    ∀ piece ∈ splitC sep s, sep ∉ piece := by
  induction s with
  | nil =>
    intro piece hp
    simp [splitC] at hp
    subst hp
    simp
  | cons c rest ih =>
    intro piece hp
    simp only [splitC] at hp
    by_cases hc : c = sep
    · rw [if_pos hc] at hp
      rcases List.mem_cons.mp hp with h | h
      · subst h; simp
      · exact ih piece h
    · rw [if_neg hc] at hp
      cases hsp : splitC sep rest with
      | nil => exact absurd hsp (splitC_ne_nil sep rest)
      | cons p ps =>
        rw [hsp] at hp
        rcases List.mem_cons.mp hp with h | h
        · subst h
          intro hmem
          rcases List.mem_cons.mp hmem with h1 | h1
          · exact hc h1.symm
          · exact ih p (by rw [hsp]; exact List.mem_cons_self p ps) h1
        · exact ih piece (by rw [hsp]; exact List.mem_cons.mpr (Or.inr h))

theorem mem_splitC_subset {sep : Char} {s : Str} :
    ∀ piece ∈ splitC sep s, ∀ c ∈ piece, c ∈ s := by
  induction s with
  | nil =>
    intro piece hp c hc
    simp [splitC] at hp
    subst hp
    simp at hc
  | cons c0 rest ih =>
    intro piece hp c hc
    simp only [splitC] at hp
    by_cases hcs : c0 = sep
    · rw [if_pos hcs] at hp
      rcases List.mem_cons.mp hp with h | h
      · subst h; simp at hc
      · exact List.mem_cons_of_mem _ (ih piece h c hc)
    · rw [if_neg hcs] at hp
      cases hsp : splitC sep rest with
      | nil => exact absurd hsp (splitC_ne_nil sep rest)
      | cons p ps =>
        rw [hsp] at hp
        rcases List.mem_cons.mp hp with h | h
        · subst h
          rcases List.mem_cons.mp hc with h1 | h1
          · exact h1 ▸ List.mem_cons_self _ _
          · exact List.mem_cons_of_mem _
              (ih p (by rw [hsp]; exact List.mem_cons_self p ps) c h1)
        · exact List.mem_cons_of_mem _
            (ih piece (by rw [hsp]; exact List.mem_cons.mpr (Or.inr h)) c hc)

theorem sep_not_mem_subDot (s : Str) : '・' ∉ subDot s := by
  intro h
  rcases List.mem_map.mp h with ⟨x, _, hx⟩
  by_cases hxs : x = '・'
  · rw [if_pos hxs] at hx
    exact absurd hx (by decide)
  · rw [if_neg hxs] at hx
    exact hxs hx

theorem sep_not_mem_dropSep (s : Str) : '・' ∉ dropSep s := by
  intro h
  have := List.mem_filter.mp h
  simpa using this.2

theorem splitC_of_not_mem {sep : Char} {a : Str} (h : sep ∉ a) : splitC sep a = [a] := by
  induction a with
  | nil => rfl
  | cons c t ih =>
    have hc : ¬ c = sep := fun e => h (by rw [e]; exact List.mem_cons_self _ _)
    have ht : sep ∉ t := fun hm => h (List.mem_cons_of_mem _ hm)
    simp only [splitC, if_neg hc, ih ht]

theorem splitC_append_sep {sep : Char} {a : Str} (b : Str) (h : sep ∉ a) :
    splitC sep (a ++ sep :: b) = a :: splitC sep b := by
  induction a with
  | nil => simp [splitC]
  | cons c t ih =>
    have hc : ¬ c = sep := fun e => h (by rw [e]; exact List.mem_cons_self _ _)
    have ht : sep ∉ t := fun hm => h (List.mem_cons_of_mem _ hm)
    rw [List.cons_append]
    simp only [splitC, if_neg hc]
    rw [ih ht]

theorem foldl_inv_mem {α σ : Type} {P : σ → Prop} {f : σ → α → σ} :
    ∀ (l : List α), (∀ s a, a ∈ l → P s → P (f s a)) → ∀ s, P s → P (l.foldl f s)
  | [], _, _, hs => hs
  | a :: t, h, s, hs =>
    foldl_inv_mem t (fun s' a' ha' => h s' a' (List.mem_cons_of_mem _ ha'))
      (f s a) (h s a (List.mem_cons_self _ _) hs)

/-! ### Invariants of the reading extraction -/

theorem trimmedSet_empty : TrimmedSet ∅ := by
  intro r hr
  exact absurd hr (Finset.not_mem_empty r)

theorem sepFreeSet_empty : SepFreeSet ∅ := by
  intro r hr
  exact absurd hr (Finset.not_mem_empty r)

theorem trimmedSet_insert {S : Finset Str} (h : TrimmedSet S) (x : Str) :
    TrimmedSet (insert (pyStrip x) S) := by
  intro r hr
  rcases Finset.mem_insert.mp hr with h1 | h1
  · rw [h1]; exact pyStrip_idem x
  · exact h r h1

theorem sepFreeSet_insert {S : Finset Str} (h : SepFreeSet S) {x : Str}
    (hx : '・' ∉ x) : SepFreeSet (insert x S) := by
  intro r hr
  rcases Finset.mem_insert.mp hr with h1 | h1
  · rw [h1]; exact hx
  · exact h r h1

theorem getOnReading_inv {st : OSt} (h : OInv st) (el : Str) :
    OInv (getOnReading st el) := by
  unfold getOnReading
  refine foldl_inv_mem _ ?_ st h
  intro s a ha hs
  obtain ⟨h1, h2, h3, h4⟩ := hs
  have hsep : '・' ∉ pyStrip a := by
    intro hm
    exact sep_not_mem_subDot (pyStrip el)
      (mem_splitC_subset a ha _ (mem_pyStrip hm))
  by_cases hext : s.ext = true
  · rw [if_pos hext]
    exact ⟨h1, h2, trimmedSet_insert h3 a, sepFreeSet_insert h4 hsep⟩
  · rw [if_neg hext]
    exact ⟨trimmedSet_insert h1 a, sepFreeSet_insert h2 hsep, h3, h4⟩

theorem onStep_inv {st : OSt} (h : OInv st) (child : Node) :
    OInv (onStep st child) := by
  cases child with
  | text s => exact getOnReading_inv h s
  | elem name attrs children =>
    dsimp only [onStep]
    by_cases hspan : name = "span"
    · rw [if_pos hspan]
      refine foldl_inv_mem _ ?_ st h
      intro s c2 _ hs
      cases c2 with
      | text t => exact getOnReading_inv hs t
      | elem n2 a2 ch2 =>
        dsimp only
        by_cases hcond :
            n2 = "img" ∧ hasSubB (chars "外") (strNode (.elem n2 a2 ch2)) = true
        · rw [if_pos hcond]; exact hs
        · rw [if_neg hcond]; exact hs
    · rw [if_neg hspan]
      by_cases himg :
          name = "img" ∧ hasSubB (chars "外") (strNode (.elem name attrs children)) = true
      · rw [if_pos himg]; exact h
      · rw [if_neg himg]; exact h

theorem insKun_strip_inv {st : KSt} (h : KInv st) (x : Str) :
    KInv (insKun st (pyStrip x)) :=
  ⟨trimmedSet_insert h.1 x, h.2⟩

theorem insKunExt_strip_inv {st : KSt} (h : KInv st) (x : Str) :
    KInv (insKunExt st (pyStrip x)) :=
  ⟨h.1, trimmedSet_insert h.2 x⟩

theorem fuseSplit_inv {ins : KSt → Str → KSt}
    (hins : ∀ st x, KInv st → KInv (ins st (pyStrip x)))
    {st : KSt} (h : KInv st) (ks : List Str) : KInv (fuseSplit ins st ks) := by
  unfold fuseSplit
  refine foldl_inv_mem _ ?_ st h
  intro s a _ hs
  exact hins _ _ hs

theorem preSplit_inv {ins : KSt → Str → KSt}
    (hins : ∀ st x, KInv st → KInv (ins st (pyStrip x)))
    {st : KSt} (h : KInv st) : KInv (preSplit ins st) := by
  unfold preSplit
  by_cases hc : '・' ∈ st.kb
  · rw [if_pos hc]
    refine (foldl_inv_mem _ ?_ st h : KInv _)
    intro s a _ hs
    by_cases hne : pyStrip a ≠ []
    · rw [if_pos hne]; exact hins _ _ hs
    · rw [if_neg hne]; exact hs
  · rw [if_neg hc]; exact h

theorem fusePrim_inv {st : KSt} (h : KInv st) (s : Str) : KInv (fusePrim st s) := by
  unfold fusePrim
  by_cases hc : '・' ∈ s
  · rw [if_pos hc]
    exact fuseSplit_inv (fun s2 x h2 => insKun_strip_inv h2 x) h _
  · rw [if_neg hc]
    exact insKun_strip_inv (preSplit_inv (fun s2 x h2 => insKun_strip_inv h2 x) h) _

theorem fuseExt_inv {st : KSt} (h : KInv st) (s : Str) : KInv (fuseExt st s) := by
  unfold fuseExt
  by_cases hc : '・' ∈ s
  · rw [if_pos hc]
    exact fuseSplit_inv (fun s2 x h2 => insKunExt_strip_inv h2 x) h _
  · rw [if_neg hc]
    exact insKunExt_strip_inv (preSplit_inv (fun s2 x h2 => insKunExt_strip_inv h2 x) h) _

theorem kunStyled_inv {st : KSt} (h : KInv st) (children : List Node) :
    KInv (kunStyled st children) := by
  unfold kunStyled
  have hst1 :
      KInv (if st.kb ≠ [] then
        (splitC '・' st.kb).foldl
          (fun a kk => if pyStrip kk ≠ [] then insKun a (pyStrip kk) else a) st
      else st) := by
    split
    · refine foldl_inv_mem _ ?_ st h
      intro s a _ hs
      by_cases hne : pyStrip a ≠ []
      · rw [if_pos hne]; exact insKun_strip_inv hs a
      · rw [if_neg hne]; exact hs
    · exact h
  refine foldl_inv_mem _ ?_ _ hst1
  intro s c2 _ hs
  cases c2 with
  | text t => exact hs
  | elem n2 a2 ch2 =>
    dsimp only
    by_cases hn : n2 ≠ "img"
    · rw [if_pos hn]
      refine foldl_inv_mem _ ?_ s hs
      intro b c3 _ hb
      exact fuseExt_inv hb _
    · rw [if_neg hn]; exact hs

theorem kunStep_inv {st : KSt} (h : KInv st) (child : Node) :
    KInv (kunStep st child) := by
  cases child with
  | text s => exact h
  | elem name attrs children =>
    dsimp only [kunStep]
    by_cases hspan : name = "span"
    · rw [if_pos hspan]
      by_cases hcls : ((classList attrs).getD []).head? = some (chars "txtNormal")
      · rw [if_pos hcls]
        refine foldl_inv_mem _ ?_ st h
        intro s c2 _ hs
        cases c2 with
        | text t => exact fusePrim_inv hs t
        | elem n2 a2 ch2 =>
          dsimp only
          by_cases hn : n2 ≠ "img"
          · rw [if_pos hn]; exact fusePrim_inv hs _
          · rw [if_neg hn]; exact hs
      · rw [if_neg hcls]
        by_cases hsty : getAttr attrs "style" = some "color:#000000"
        · rw [if_pos hsty]; exact kunStyled_inv h children
        · rw [if_neg hsty]; exact h
    · rw [if_neg hspan]; exact h

theorem finalFlush_inv {st : KSt} (h : KInv st) : KInv (finalFlush st) := by
  unfold finalFlush
  by_cases hkb : st.kb ≠ []
  · rw [if_pos hkb]
    by_cases hext : st.ext = true
    · rw [if_pos hext]
      by_cases hc : '・' ∈ st.kb
      · rw [if_pos hc]
        refine foldl_inv_mem _ ?_ st h
        intro s a _ hs
        by_cases hne : pyStrip a ≠ []
        · rw [if_pos hne]; exact insKunExt_strip_inv hs a
        · rw [if_neg hne]; exact hs
      · rw [if_neg hc]; exact insKunExt_strip_inv h _
    · rw [if_neg hext]
      by_cases hc : '・' ∈ st.kb
      · rw [if_pos hc]
        refine foldl_inv_mem _ ?_ st h
        intro s a _ hs
        by_cases hne : pyStrip a ≠ []
        · rw [if_pos hne]; exact insKun_strip_inv hs a
        · rw [if_neg hne]; exact hs
      · rw [if_neg hc]; exact insKun_strip_inv h _
  · rw [if_neg hkb]; exact h

/-- Combined invariant of `_parse_readings` on arbitrary fragments. -/
theorem parseReadings_inv (onTag kunTag : List Node) :
    TrimmedSet (parseReadings onTag kunTag).onyomi ∧
    SepFreeSet (parseReadings onTag kunTag).onyomi ∧
    TrimmedSet (parseReadings onTag kunTag).onyomi_ext ∧
    SepFreeSet (parseReadings onTag kunTag).onyomi_ext ∧
    TrimmedSet (parseReadings onTag kunTag).kunyomi ∧
    TrimmedSet (parseReadings onTag kunTag).kunyomi_ext := by
  have ho : OInv (onTag.foldl onStep ⟨∅, ∅, false⟩) := by
    refine foldl_inv_mem _ ?_ _ ?_
    · intro s a _ hs
      exact onStep_inv hs a
    · exact ⟨trimmedSet_empty, sepFreeSet_empty, trimmedSet_empty, sepFreeSet_empty⟩
  have hk : KInv (finalFlush (kunTag.foldl kunStep ⟨∅, ∅, [], false⟩)) := by
    refine finalFlush_inv (foldl_inv_mem _ ?_ _ ?_)
    · intro s a _ hs
      exact kunStep_inv hs a
    · exact ⟨trimmedSet_empty, trimmedSet_empty⟩
  exact ⟨ho.1, ho.2.1, ho.2.2.1, ho.2.2.2, hk.1, hk.2⟩

/-! ### Serialization round-trip helpers -/

theorem setToList_toFinset (s : Finset Str) : (setToList s).toFinset = s :=
  Finset.sort_toFinset _ s

theorem typesToList_toFinset (s : Finset KanjiType) : (typesToList s).toFinset = s :=
  Finset.sort_toFinset _ s

theorem kanjiTypeOfValue_value (t : KanjiType) :
    kanjiTypeOfValue (kanjiTypeValue t) = some t := by
  cases t <;> rfl

theorem parseTypes_map (l : List KanjiType) :
    parseTypes (l.map kanjiTypeValue) = .ok l := by
  induction l with
  | nil => rfl
  | cons t rest ih =>
    simp [parseTypes, kanjiTypeOfValue_value, ih, Except.map]

theorem FromJSON_GetDataDict (e : Entry) :
    FromJSON (GetDataDict e) = .ok { e with meaning := none, naritachi := none } := by
  show (parseTypes ((typesToList e.types).map kanjiTypeValue) >>= fun ts => _) = _
  rw [parseTypes_map]
  show Except.ok _ = _
  simp [GetDataDict, setToList_toFinset, typesToList_toFinset]

theorem except_bind_ok {α β : Type} {x : Except Unit α} {f : α → Except Unit β} {b : β}
    (h : x >>= f = .ok b) : ∃ a, x = .ok a ∧ f a = .ok b := by
  cases x with
  | ok a => exact ⟨a, rfl, h⟩
  | error e => simp [Bind.bind, Except.bind] at h

/-! ### Claims -/

/-- C1: the spec says `related_characters` excludes the subject
character itself, but `_parse_related_kanji` guards with
`if i == self.kanji: pass`, a no-op that falls through to the `add`:
with subject "山" and listing "山岳" the subject IS in the set. -/
theorem relatedKanji_contains_self :
    parseRelatedKanji (chars "山") (chars "山岳") = {chars "山", chars "岳"} ∧
    chars "山" ∈ parseRelatedKanji (chars "山") (chars "山岳") := by
  decide

/-- C2: every Entry the program constructs satisfies
`onyomi_all = onyomi ∪ onyomi_ext` and `kunyomi_all = kunyomi ∪
kunyomi_ext`: (1) an Entry parsed from a document gets the unions set by
`_parse_HTML`; (2) rehydrating a stored record (`GetDataDict` then
`FromJSON`) preserves the invariant. -/
theorem entry_all_sets_union :
    (∀ d e, assembleEntry d = .ok e →
      e.onyomi_all = e.onyomi ∪ e.onyomi_ext ∧
      e.kunyomi_all = e.kunyomi ∪ e.kunyomi_ext) ∧
    (∀ e e', FromJSON (GetDataDict e) = .ok e' →
      (e.onyomi_all = e.onyomi ∪ e.onyomi_ext →
        e'.onyomi_all = e'.onyomi ∪ e'.onyomi_ext) ∧
      (e.kunyomi_all = e.kunyomi ∪ e.kunyomi_ext →
        e'.kunyomi_all = e'.kunyomi ∪ e'.kunyomi_ext)) := by
  constructor
  · intro d e he
    unfold assembleEntry at he
    cases hnat : d.naritachi with
    | none =>
      rw [hnat] at he
      obtain ⟨comp, _, he⟩ := except_bind_ok he
      simp only [pure, Except.pure, Except.ok.injEq] at he
      subst he
      exact ⟨rfl, rfl⟩
    | some nc =>
      rw [hnat] at he
      obtain ⟨comp, _, he⟩ := except_bind_ok he
      simp only [pure, Except.pure, Except.ok.injEq] at he
      subst he
      exact ⟨rfl, rfl⟩
  · intro e e' he'
    rw [FromJSON_GetDataDict] at he'
    have hh := Except.ok.inj he'
    subst hh
    exact ⟨fun h => h, fun h => h⟩

theorem entry_all_sets_union_witness :
    e0.onyomi_all = e0.onyomi ∪ e0.onyomi_ext ∧
    e0.kunyomi_all = e0.kunyomi ∪ e0.kunyomi_ext :=
  ⟨(entry_all_sets_union.1 d0 e0 (by decide)).1,
   (entry_all_sets_union.2 e0 e0 (FromJSON_GetDataDict e0)).2 (by decide)⟩

/-- C5: serializing an Entry to the key-value record and deserializing
it reproduces every field (sets order-independently).  `meaning` and
`naritachi` are never set by the scraper (they stay `None`), which the
hypotheses record. -/
theorem serialize_roundtrip (e : Entry) (hm : e.meaning = none)
    (hn : e.naritachi = none) : FromJSON (GetDataDict e) = .ok e := by
  rw [FromJSON_GetDataDict]
  congr 1
  cases e
  dsimp only at hm hn ⊢
  rw [hm, hn]

theorem serialize_roundtrip_witness :
    e0.meaning = none ∧ e0.naritachi = none ∧ FromJSON (GetDataDict e0) = .ok e0 :=
  ⟨rfl, rfl, serialize_roundtrip e0 rfl rfl⟩

/-- C8: a kunyomi fragment with stem text "か" followed by a suffix
span "える" yields exactly the fused reading "か.える" in the primary
kunyomi set (and nothing else in any set). -/
theorem kun_suffix_fusion_period :
    parseReadings [] [.text (chars "か"),
        .elem "span" [("class", "txtNormal")] [.text (chars "える")]] =
      ⟨∅, ∅, {chars "か.える"}, ∅⟩ := by
  decide

/-- C9: formation text containing none of the six classification
markers (for a character outside the exception table) yields empty
classification, empty semantic components, no phonetic component, and
no exception. -/
theorem no_marker_empty_graceful (kanji nat : Str) (contents : List Str)
    (hsp : specialEntries kanji = none)
    (h1 : hasSubB (chars "指事") nat = false)
    (h2 : hasSubB (chars "象形") nat = false)
    (h3 : hasSubB (chars "会意") nat = false)
    (h4 : hasSubB (chars "形声") nat = false)
    (h5 : hasSubB (chars "転注") nat = false)
    (h6 : hasSubB (chars "仮借") nat = false) :
    parseComponents kanji nat contents = .ok ⟨∅, ∅, none⟩ := by
  have htypes : GetKanjiTypes nat = ∅ := by
    simp [GetKanjiTypes, h1, h2, h3, h4, h5, h6]
  unfold parseComponents
  rw [hsp, htypes]
  simp [pure, Except.pure]

theorem no_marker_empty_graceful_witness :
    specialEntries (chars "亜") = none ∧
    hasSubB (chars "指事") (chars "あいう") = false ∧
    hasSubB (chars "象形") (chars "あいう") = false ∧
    hasSubB (chars "会意") (chars "あいう") = false ∧
    hasSubB (chars "形声") (chars "あいう") = false ∧
    hasSubB (chars "転注") (chars "あいう") = false ∧
    hasSubB (chars "仮借") (chars "あいう") = false ∧
    parseComponents (chars "亜") (chars "あいう") [] = .ok ⟨∅, ∅, none⟩ :=
  ⟨by decide, by decide, by decide, by decide, by decide, by decide, by decide,
   no_marker_empty_graceful (chars "亜") (chars "あいう") [] (by decide) (by decide)
     (by decide) (by decide) (by decide) (by decide) (by decide)⟩

/-- C3 counterexample: the readings "あ・い." (primary) and "え・お."
(extended) are stored with the separator `・` still inside, refuting the
claim that no stored reading contains the separator. -/
theorem readings_sep_survives_cex :
    chars "あ・い." ∈ (parseReadings [] kunCexFrag).kunyomi ∧
    '・' ∈ chars "あ・い." ∧
    chars "え・お." ∈ (parseReadings [] kunCexFrag).kunyomi_ext ∧
    '・' ∈ chars "え・お." := by
  decide

/-- C3 amended: every reading stored by the reading extraction pass
into any of the four sets is trimmed, and readings stored into `onyomi`
and `onyomi_ext` never contain the separator `・` (a kunyomi-side
reading can retain a separator carried in from accumulated stem text in
the suffix-fusion branch). -/
theorem readings_trimmed_amended (onTag kunTag : List Node) :
    TrimmedSet (parseReadings onTag kunTag).onyomi ∧
    SepFreeSet (parseReadings onTag kunTag).onyomi ∧
    TrimmedSet (parseReadings onTag kunTag).onyomi_ext ∧
    SepFreeSet (parseReadings onTag kunTag).onyomi_ext ∧
    TrimmedSet (parseReadings onTag kunTag).kunyomi ∧
    TrimmedSet (parseReadings onTag kunTag).kunyomi_ext :=
  parseReadings_inv onTag kunTag

/-- C4: a character in the decomposition exception table gets exactly
its hardcoded semantic/phonetic overrides in the assembled Entry,
whatever formation text accompanies it. -/
theorem exception_table_overrides (d : Doc) (nat : Str) (conts : List Str)
    (sc : Finset Str) (pc : Option Str) (e : Entry)
    (hsp : specialEntries d.oyaji = some (sc, pc))
    (hnat : d.naritachi = some (nat, conts))
    (he : assembleEntry d = .ok e) :
    e.semantic_comp = sc ∧ e.phonetic_comp = pc := by
  unfold assembleEntry at he
  rw [hnat] at he
  obtain ⟨comp, hcomp, he⟩ := except_bind_ok he
  unfold parseComponents at hcomp
  rw [hsp] at hcomp
  simp only [pure, Except.pure, Except.ok.injEq] at hcomp
  subst hcomp
  simp only [pure, Except.pure, Except.ok.injEq] at he
  subst he
  exact ⟨rfl, rfl⟩

theorem exception_table_overrides_witness :
    specialEntries d4.oyaji = some ({chars "人"}, none) ∧
    d4.naritachi = some (chars "某テキスト", []) ∧
    assembleEntry d4 = .ok e4 ∧
    e4.semantic_comp = {chars "人"} ∧ e4.phonetic_comp = none :=
  ⟨by decide, rfl, by decide,
   (exception_table_overrides d4 (chars "某テキスト") [] {chars "人"} none e4
     (by decide) rfl (by decide)).1,
   (exception_table_overrides d4 (chars "某テキスト") [] {chars "人"} none e4
     (by decide) rfl (by decide)).2⟩

theorem keiseiTail_phonetic_kaii {types : Finset KanjiType} {nat : Str}
    {conts : List Str} {sem : Finset Str × Bool} {st : CompSt} {c : Char}
    (hkaii : KanjiType.kaii ∈ types)
    (hok : keiseiTail types nat conts sem = .ok st)
    (hc : pyGetChar nat (pyFind nat (chars "と") + 2) = some c)
    (hne : c ≠ '<') : st.phonetic_comp = some [c] := by
  unfold keiseiTail at hok
  obtain ⟨onpu0, _, hok⟩ := except_bind_ok hok
  try dsimp only at hok
  rw [if_pos hkaii] at hok
  obtain ⟨onpu, honpu, hok⟩ := except_bind_ok hok
  have heq : onpu = c := by
    unfold pyIndex at honpu
    rw [hc] at honpu
    exact (Except.ok.inj honpu).symm
  subst heq
  try dsimp only at hok
  rw [if_pos hne] at hok
  simp only [pure, Except.pure, Except.ok.injEq] at hok
  subst hok
  rfl

theorem keiseiTail_phonetic_mem {types : Finset KanjiType} {nat : Str}
    {conts : List Str} {sem : Finset Str × Bool} {st : CompSt}
    (hok : keiseiTail types nat conts sem = .ok st) :
    ∃ v, st.phonetic_comp = some v ∧ v ∈ st.semantic_comp := by
  unfold keiseiTail at hok
  obtain ⟨onpu0, _, hok⟩ := except_bind_ok hok
  try dsimp only at hok
  split at hok
  all_goals
    obtain ⟨onpu, _, hok⟩ := except_bind_ok hok
    try dsimp only at hok
    split at hok
    all_goals
      first
      | (simp only [pure, Except.pure, Except.ok.injEq] at hok
         subst hok
         exact ⟨_, rfl, Finset.mem_insert_self _ _⟩)
      | (obtain ⟨v, _, hok⟩ := except_bind_ok hok
         simp only [pure, Except.pure, Except.ok.injEq] at hok
         subst hok
         exact ⟨v, rfl, Finset.mem_insert_self _ _⟩)

/-- C6: for formation text classified both phono-semantic (形声) and
compound-ideographic (会意), with the character outside the exception
table, the phonetic component is the character at the position two
after the connective marker と (not the one after 音符). -/
theorem keisei_kaii_phonetic_after_to (kanji nat : Str) (conts : List Str)
    (st : CompSt) (c : Char)
    (hsp : specialEntries kanji = none)
    (hkeisei : KanjiType.keisei ∈ GetKanjiTypes nat)
    (hkaii : KanjiType.kaii ∈ GetKanjiTypes nat)
    (hok : parseComponents kanji nat conts = .ok st)
    (hc : pyGetChar nat (pyFind nat (chars "と") + 2) = some c)
    (hne : c ≠ '<') :
    st.phonetic_comp = some [c] := by
  unfold parseComponents at hok
  rw [hsp] at hok
  try dsimp only at hok
  rw [if_pos hkeisei] at hok
  split at hok
  all_goals
    obtain ⟨ifu, hifu, hok⟩ := except_bind_ok hok
    try dsimp only at hok
    obtain ⟨semPar, hsem, hok⟩ := except_bind_ok hok
    exact keiseiTail_phonetic_kaii hkaii hok hc hne

theorem keisei_kaii_phonetic_after_to_witness :
    specialEntries (chars "某") = none ∧
    KanjiType.keisei ∈ GetKanjiTypes (chars "会意形声。Aと、Bから成る。") ∧
    KanjiType.kaii ∈ GetKanjiTypes (chars "会意形声。Aと、Bから成る。") ∧
    parseComponents (chars "某") (chars "会意形声。Aと、Bから成る。") [] = .ok st6 ∧
    pyGetChar (chars "会意形声。Aと、Bから成る。")
      (pyFind (chars "会意形声。Aと、Bから成る。") (chars "と") + 2) = some 'B' ∧
    st6.phonetic_comp = some ['B'] :=
  ⟨by decide, by decide, by decide, by decide, by decide,
   keisei_kaii_phonetic_after_to (chars "某") (chars "会意形声。Aと、Bから成る。") [] st6 'B'
     (by decide) (by decide) (by decide) (by decide) (by decide) (by decide)⟩

/-- C10: in the generic phono-semantic branch (形声 classified,
character not in the exception table), whatever value is resolved as
the phonetic component is also inserted into the semantic-component
set. -/
theorem phonetic_member_semantic (kanji nat : Str) (conts : List Str) (st : CompSt)
    (hsp : specialEntries kanji = none)
    (hkeisei : KanjiType.keisei ∈ GetKanjiTypes nat)
    (hok : parseComponents kanji nat conts = .ok st) :
    ∃ v, st.phonetic_comp = some v ∧ v ∈ st.semantic_comp := by
  unfold parseComponents at hok
  rw [hsp] at hok
  try dsimp only at hok
  rw [if_pos hkeisei] at hok
  split at hok
  all_goals
    obtain ⟨ifu, hifu, hok⟩ := except_bind_ok hok
    try dsimp only at hok
    obtain ⟨semPar, hsem, hok⟩ := except_bind_ok hok
    exact keiseiTail_phonetic_mem hok

theorem phonetic_member_semantic_witness :
    st6.phonetic_comp = some (chars "B") ∧ chars "B" ∈ st6.semantic_comp := by
  obtain ⟨v, hv1, hv2⟩ :=
    phonetic_member_semantic (chars "某") (chars "会意形声。Aと、Bから成る。") [] st6
      (by decide) (by decide) (by decide)
  have hv : v = chars "B" := Option.some.inj (by rw [← hv1]; rfl)
  subst hv
  exact ⟨hv1, hv2⟩

/-- C7: in a kunyomi fragment with two separator-joined primary
readings followed by a styled extended-region span holding one more
reading, the first two land in `kunyomi` and the last lands in
`kunyomi_ext` (so no source token reaches both sets). -/
theorem styled_span_extended_routing (r1 r2 r3 : Str)
    (t1 : pyStrip r1 = r1) (n1 : r1 ≠ []) (s1 : '・' ∉ r1)
    (t2 : pyStrip r2 = r2) (n2 : r2 ≠ []) (s2 : '・' ∉ r2)
    (t3 : pyStrip r3 = r3) (n3 : r3 ≠ []) (s3 : '・' ∉ r3) :
    (parseReadings [] [.text (r1 ++ '・' :: r2),
        .elem "span" [("style", "color:#000000")] [.text r3]]).kunyomi = {r1, r2} ∧
    (parseReadings [] [.text (r1 ++ '・' :: r2),
        .elem "span" [("style", "color:#000000")] [.text r3]]).kunyomi_ext = {r3} := by
  have hps12 : pyStrip (r1 ++ '・' :: r2) = r1 ++ '・' :: r2 := by
    have h := pyStrip_append_of ['・'] t1 n1 t2 n2
    simpa using h
  have hsplit : splitC '・' (r1 ++ '・' :: r2) = [r1, r2] := by
    rw [splitC_append_sep r2 s1, splitC_of_not_mem s2]
  have hcls : ¬ (((classList [("style", "color:#000000")]).getD []).head?
      = some (chars "txtNormal")) := by decide
  have hsty : getAttr [("style", "color:#000000")] "style" = some "color:#000000" := by
    decide
  have hmain : finalFlush (List.foldl kunStep ⟨∅, ∅, [], false⟩
      [Node.text (r1 ++ '・' :: r2),
       Node.elem "span" [("style", "color:#000000")] [Node.text r3]])
      = ⟨insert r2 (insert r1 ∅), insert r3 ∅, r3, true⟩ := by
    simp [List.foldl, kunStep, kunStyled, finalFlush, insKun, insKunExt,
      hps12, hsplit, t1, t2, t3, hcls, hsty, n1, n2, n3, s3]
  constructor
  · show (finalFlush (List.foldl kunStep ⟨∅, ∅, [], false⟩
      [Node.text (r1 ++ '・' :: r2),
       Node.elem "span" [("style", "color:#000000")] [Node.text r3]])).k = {r1, r2}
    rw [hmain]
    exact Finset.pair_comm r2 r1
  · show (finalFlush (List.foldl kunStep ⟨∅, ∅, [], false⟩
      [Node.text (r1 ++ '・' :: r2),
       Node.elem "span" [("style", "color:#000000")] [Node.text r3]])).ke = {r3}
    rw [hmain]
    simp

theorem styled_span_extended_routing_witness :
    pyStrip (chars "はし") = chars "はし" ∧ chars "はし" ≠ [] ∧ '・' ∉ chars "はし" ∧
    (parseReadings [] [.text (chars "はし" ++ '・' :: chars "やま"),
        .elem "span" [("style", "color:#000000")] [.text (chars "かわ")]]).kunyomi
      = {chars "はし", chars "やま"} ∧
    (parseReadings [] [.text (chars "はし" ++ '・' :: chars "やま"),
        .elem "span" [("style", "color:#000000")] [.text (chars "かわ")]]).kunyomi_ext
      = {chars "かわ"} :=
  ⟨by decide, by decide, by decide,
   (styled_span_extended_routing (chars "はし") (chars "やま") (chars "かわ")
     (by decide) (by decide) (by decide) (by decide) (by decide) (by decide)
     (by decide) (by decide) (by decide)).1,
   (styled_span_extended_routing (chars "はし") (chars "やま") (chars "かわ")
     (by decide) (by decide) (by decide) (by decide) (by decide) (by decide)
     (by decide) (by decide) (by decide)).2⟩
